import Mathlib

/-!
Verification of the ensemble evaluation script for CLINC intent detection
(`baselines/clinc_intent/ensemble.py`).

The numerical core is embedded over the reals: a logits tensor of shape
[ensemble_size, batch, num_classes] becomes a function
`Fin M → Fin B → Fin C → ℝ`, a label tensor of shape [batch] becomes
`Fin B → Fin C`, and the TensorFlow reductions (`softmax`,
`sparse_softmax_cross_entropy_with_logits`, `reduce_logsumexp`,
`reduce_mean`) become the corresponding exact real-valued operations.
The control-flow parts of `main` (the logit cache, the completion-percentage
log line, the configuration checks and the `steps_per_eval` truncation) are
embedded as executable functions over lists and naturals.
-/

namespace ClincEnsemble

/-- `tf.nn.softmax` over the class axis: `exp (logits i) / Σ_j exp (logits j)`. -/
noncomputable def softmax {C : ℕ} (logits : Fin C → ℝ) (i : Fin C) : ℝ :=
  Real.exp (logits i) / ∑ j, Real.exp (logits j)

/-- `tf.nn.sparse_softmax_cross_entropy_with_logits` for one example:
`-log (softmax logits)[label]`. -/
noncomputable def sparse_softmax_cross_entropy {C : ℕ} (label : Fin C)
    (logits : Fin C → ℝ) : ℝ :=
  - Real.log (softmax logits label)

/-- `tf.reduce_logsumexp` over the member axis. -/
noncomputable def reduce_logsumexp {M : ℕ} (f : Fin M → ℝ) : ℝ :=
  Real.log (∑ m, Real.exp (f m))

/-- `tf.reduce_mean` over the member axis. -/
noncomputable def reduce_mean {M : ℕ} (f : Fin M → ℝ) : ℝ :=
  (∑ m, f m) / (M : ℝ)

/-- Per-member negative log-likelihood tensor `nll` computed by both
`ensemble_negative_log_likelihood` and `gibbs_cross_entropy`: the labels are
broadcast over the leading member axis and the sparse softmax cross-entropy is
taken per member and per example. -/
noncomputable def member_nll {M B C : ℕ} (labels : Fin B → Fin C)
    (logits : Fin M → Fin B → Fin C → ℝ) (m : Fin M) (b : Fin B) : ℝ :=
  sparse_softmax_cross_entropy (labels b) (logits m b)

/-- `ensemble_negative_log_likelihood(labels, logits)` from `ensemble.py`,
per example: `-reduce_logsumexp(-nll, axis=0) + log(ensemble_size)`. -/
noncomputable def ensemble_negative_log_likelihood {M B C : ℕ}
    (labels : Fin B → Fin C) (logits : Fin M → Fin B → Fin C → ℝ)
    (b : Fin B) : ℝ :=
  - reduce_logsumexp (fun m => - member_nll labels logits m b) +
    Real.log (M : ℝ)

/-- `gibbs_cross_entropy(labels, logits)` from `ensemble.py`, per example:
`reduce_mean(nll, axis=0)`. -/
noncomputable def gibbs_cross_entropy {M B C : ℕ} (labels : Fin B → Fin C)
    (logits : Fin M → Fin B → Fin C → ℝ) (b : Fin B) : ℝ :=
  reduce_mean (fun m => member_nll labels logits m b)

/-- `per_probs = tf.nn.softmax(logits)` from the evaluation loop of `main`:
softmax per member over the class axis. -/
noncomputable def per_probs {M B C : ℕ} (logits : Fin M → Fin B → Fin C → ℝ)
    (m : Fin M) (b : Fin B) (i : Fin C) : ℝ :=
  softmax (logits m b) i

/-- `probs = tf.reduce_mean(per_probs, axis=0)` from the evaluation loop of
`main`: the ensemble probability vector, softmax-then-average. -/
noncomputable def ensemble_probs {M B C : ℕ}
    (logits : Fin M → Fin B → Fin C → ℝ) (b : Fin B) (i : Fin C) : ℝ :=
  reduce_mean (fun m => per_probs logits m b i)

/-- The denominator of a softmax is positive (the class axis is nonempty
because a label inhabits it). -/
lemma sum_exp_pos {C : ℕ} (i : Fin C) (logits : Fin C → ℝ) :
    0 < ∑ j, Real.exp (logits j) :=
  Finset.sum_pos (fun j _ => Real.exp_pos (logits j))
    (Finset.univ_nonempty_iff.mpr ⟨i⟩)

/-- Every softmax entry is positive. -/
lemma softmax_pos {C : ℕ} (logits : Fin C → ℝ) (i : Fin C) :
    0 < softmax logits i :=
  div_pos (Real.exp_pos (logits i)) (sum_exp_pos i logits)

/-- Exponentiating the negated per-member cross-entropy recovers the
per-member probability of the true label. -/
lemma exp_neg_member_nll {M B C : ℕ} (labels : Fin B → Fin C)
    (logits : Fin M → Fin B → Fin C → ℝ) (m : Fin M) (b : Fin B) :
    Real.exp (- member_nll labels logits m b) =
      softmax (logits m b) (labels b) := by
  unfold member_nll sparse_softmax_cross_entropy
  rw [neg_neg, Real.exp_log (softmax_pos (logits m b) (labels b))]

/-- C2: `gibbs_cross_entropy` is the arithmetic mean over the ensemble members
of the per-member sparse softmax cross-entropy of the true label. -/
theorem gibbs_cross_entropy_eq_mean_nll {M B C : ℕ} (hM : 0 < M)
    (labels : Fin B → Fin C) (logits : Fin M → Fin B → Fin C → ℝ)
    (b : Fin B) :
    gibbs_cross_entropy labels logits b =
      (∑ m, sparse_softmax_cross_entropy (labels b) (logits m b)) / (M : ℝ) := by
  rfl

/-- Witness for C2 at the concrete input `M = B = C = 1`, all logits zero. -/
theorem gibbs_cross_entropy_eq_mean_nll_witness :
    (0 : ℕ) < 1 ∧
      gibbs_cross_entropy (fun _ : Fin 1 => (0 : Fin 1))
          (fun _ : Fin 1 => fun _ : Fin 1 => fun _ : Fin 1 => (0 : ℝ)) 0 =
        (∑ m : Fin 1,
          sparse_softmax_cross_entropy (0 : Fin 1) (fun _ => (0 : ℝ))) /
            ((1 : ℕ) : ℝ) :=
  ⟨Nat.one_pos,
    gibbs_cross_entropy_eq_mean_nll Nat.one_pos
      (fun _ : Fin 1 => (0 : Fin 1))
      (fun _ : Fin 1 => fun _ : Fin 1 => fun _ : Fin 1 => (0 : ℝ)) 0⟩

/-- C4: with a single ensemble member both reductions collapse to the
single-model sparse softmax cross-entropy. -/
theorem ensemble_size_one_collapse {B C : ℕ} (labels : Fin B → Fin C)
    (logits : Fin 1 → Fin B → Fin C → ℝ) (b : Fin B) :
    ensemble_negative_log_likelihood labels logits b =
        sparse_softmax_cross_entropy (labels b) (logits 0 b) ∧
      gibbs_cross_entropy labels logits b =
        sparse_softmax_cross_entropy (labels b) (logits 0 b) := by
  constructor
  · unfold ensemble_negative_log_likelihood reduce_logsumexp
    rw [Fin.sum_univ_one, Real.log_exp]
    norm_num [member_nll]
  · unfold gibbs_cross_entropy reduce_mean
    rw [Fin.sum_univ_one]
    norm_num [member_nll]

/-- C10: both ensemble reductions are invariant under any permutation of the
ensemble members along the leading axis of the logits tensor. -/
theorem member_permutation_invariant {M B C : ℕ} (labels : Fin B → Fin C)
    (logits : Fin M → Fin B → Fin C → ℝ) (σ : Equiv.Perm (Fin M))
    (b : Fin B) :
    ensemble_negative_log_likelihood labels (fun m => logits (σ m)) b =
        ensemble_negative_log_likelihood labels logits b ∧
      gibbs_cross_entropy labels (fun m => logits (σ m)) b =
        gibbs_cross_entropy labels logits b := by
  constructor
  · unfold ensemble_negative_log_likelihood reduce_logsumexp member_nll
    rw [Equiv.sum_comp σ
      (fun m => Real.exp (- sparse_softmax_cross_entropy (labels b) (logits m b)))]
  · unfold gibbs_cross_entropy reduce_mean member_nll
    rw [Equiv.sum_comp σ
      (fun m => sparse_softmax_cross_entropy (labels b) (logits m b))]

/-- C1: `ensemble_negative_log_likelihood` equals
`-logsumexp_m(-nll_m) + log M`, and equivalently the negative log of the
arithmetic mean over members of the per-member probability of the true
label. -/
theorem ensemble_nll_eq_neg_log_mean_prob {M B C : ℕ} (hM : 0 < M)
    (labels : Fin B → Fin C) (logits : Fin M → Fin B → Fin C → ℝ)
    (b : Fin B) :
    ensemble_negative_log_likelihood labels logits b =
        - reduce_logsumexp (fun m => - member_nll labels logits m b) +
          Real.log (M : ℝ) ∧
      ensemble_negative_log_likelihood labels logits b =
        - Real.log ((∑ m, softmax (logits m b) (labels b)) / (M : ℝ)) := by
  refine ⟨rfl, ?_⟩
  have hsum : ∑ m, Real.exp (- member_nll labels logits m b) =
      ∑ m, softmax (logits m b) (labels b) :=
    Finset.sum_congr rfl (fun m _ => exp_neg_member_nll labels logits m b)
  have hpos : 0 < ∑ m, softmax (logits m b) (labels b) :=
    Finset.sum_pos (fun m _ => softmax_pos _ _)
      (Finset.univ_nonempty_iff.mpr ⟨⟨0, hM⟩⟩)
  have hMR : (0 : ℝ) < (M : ℝ) := Nat.cast_pos.mpr hM
  show - Real.log (∑ m, Real.exp (- member_nll labels logits m b)) +
      Real.log (M : ℝ) =
    - Real.log ((∑ m, softmax (logits m b) (labels b)) / (M : ℝ))
  rw [hsum, Real.log_div hpos.ne' hMR.ne']
  ring

/-- Witness for C1 at the concrete input `M = B = C = 1`, all logits zero. -/
theorem ensemble_nll_eq_neg_log_mean_prob_witness :
    (0 : ℕ) < 1 ∧
      (ensemble_negative_log_likelihood (fun _ : Fin 1 => (0 : Fin 1))
          (fun _ : Fin 1 => fun _ : Fin 1 => fun _ : Fin 1 => (0 : ℝ)) 0 =
        - reduce_logsumexp
            (fun m => - member_nll (fun _ : Fin 1 => (0 : Fin 1))
              (fun _ : Fin 1 => fun _ : Fin 1 => fun _ : Fin 1 => (0 : ℝ)) m 0) +
          Real.log ((1 : ℕ) : ℝ) ∧
      ensemble_negative_log_likelihood (fun _ : Fin 1 => (0 : Fin 1))
          (fun _ : Fin 1 => fun _ : Fin 1 => fun _ : Fin 1 => (0 : ℝ)) 0 =
        - Real.log ((∑ m : Fin 1,
            softmax (fun _ : Fin 1 => (0 : ℝ)) (0 : Fin 1)) / ((1 : ℕ) : ℝ))) :=
  ⟨Nat.one_pos,
    ensemble_nll_eq_neg_log_mean_prob Nat.one_pos (fun _ : Fin 1 => (0 : Fin 1))
      (fun _ : Fin 1 => fun _ : Fin 1 => fun _ : Fin 1 => (0 : ℝ)) 0⟩

/-- C3: the per-example ensemble negative log-likelihood is at most the
per-example Gibbs cross-entropy (Jensen's inequality), for `M > 1`. -/
theorem ensemble_nll_le_gibbs {M B C : ℕ} (hM : 1 < M)
    (labels : Fin B → Fin C) (logits : Fin M → Fin B → Fin C → ℝ)
    (b : Fin B) :
    ensemble_negative_log_likelihood labels logits b ≤
      gibbs_cross_entropy labels logits b := by
  have hM0 : 0 < M := Nat.lt_of_lt_of_le Nat.zero_lt_one hM.le
  have hMR : (0 : ℝ) < (M : ℝ) := Nat.cast_pos.mpr hM0
  have hw : ∑ _m : Fin M, (1 : ℝ) / (M : ℝ) = 1 := by
    rw [Finset.sum_const, Finset.card_univ, Fintype.card_fin, nsmul_eq_mul]
    field_simp
  have e1 : ∑ m : Fin M, ((1 : ℝ) / (M : ℝ)) • (- member_nll labels logits m b) =
      (∑ m, - member_nll labels logits m b) / (M : ℝ) := by
    rw [Finset.sum_div]
    exact Finset.sum_congr rfl (fun m _ => by rw [smul_eq_mul]; ring)
  have e2 : ∑ m : Fin M, ((1 : ℝ) / (M : ℝ)) •
        Real.exp (- member_nll labels logits m b) =
      (∑ m, Real.exp (- member_nll labels logits m b)) / (M : ℝ) := by
    rw [Finset.sum_div]
    exact Finset.sum_congr rfl (fun m _ => by rw [smul_eq_mul]; ring)
  have hjensen : Real.exp ((∑ m, - member_nll labels logits m b) / (M : ℝ)) ≤
      (∑ m, Real.exp (- member_nll labels logits m b)) / (M : ℝ) := by
    calc Real.exp ((∑ m, - member_nll labels logits m b) / (M : ℝ))
        = Real.exp (∑ m : Fin M,
            ((1 : ℝ) / (M : ℝ)) • (- member_nll labels logits m b)) := by rw [e1]
      _ ≤ ∑ m : Fin M, ((1 : ℝ) / (M : ℝ)) •
            Real.exp (- member_nll labels logits m b) :=
          convexOn_exp.map_sum_le (fun m _ => by positivity) hw
            (fun m _ => Set.mem_univ _)
      _ = (∑ m, Real.exp (- member_nll labels logits m b)) / (M : ℝ) := e2
  have hexp_pos : (0 : ℝ) < ∑ m, Real.exp (- member_nll labels logits m b) :=
    Finset.sum_pos (fun m _ => Real.exp_pos _)
      (Finset.univ_nonempty_iff.mpr ⟨⟨0, hM0⟩⟩)
  have hlog := Real.log_le_log (Real.exp_pos _) hjensen
  rw [Real.log_exp, Real.log_div hexp_pos.ne' hMR.ne'] at hlog
  have hneg : ∑ m, - member_nll labels logits m b =
      - ∑ m, member_nll labels logits m b := Finset.sum_neg_distrib
  rw [hneg, neg_div] at hlog
  show - Real.log (∑ m, Real.exp (- member_nll labels logits m b)) +
      Real.log (M : ℝ) ≤ (∑ m, member_nll labels logits m b) / (M : ℝ)
  linarith

/-- Witness for C3 at the concrete input `M = 2`, `B = C = 1`, all logits
zero. -/
theorem ensemble_nll_le_gibbs_witness :
    1 < 2 ∧
      ensemble_negative_log_likelihood (fun _ : Fin 1 => (0 : Fin 1))
          (fun _ : Fin 2 => fun _ : Fin 1 => fun _ : Fin 1 => (0 : ℝ)) 0 ≤
        gibbs_cross_entropy (fun _ : Fin 1 => (0 : Fin 1))
          (fun _ : Fin 2 => fun _ : Fin 1 => fun _ : Fin 1 => (0 : ℝ)) 0 :=
  ⟨Nat.one_lt_two,
    ensemble_nll_le_gibbs Nat.one_lt_two (fun _ : Fin 1 => (0 : Fin 1))
      (fun _ : Fin 2 => fun _ : Fin 1 => fun _ : Fin 1 => (0 : ℝ)) 0⟩

/-- C5: the softmax-then-average ensemble probability vector sums to `1`
across the `C` classes for every example, for any `M ≥ 1` and `C ≥ 1`. -/
theorem ensemble_probs_sum_one {M B C : ℕ} (hM : 0 < M) (hC : 0 < C)
    (logits : Fin M → Fin B → Fin C → ℝ) (b : Fin B) :
    ∑ i, ensemble_probs logits b i = 1 := by
  have hMR : (0 : ℝ) < (M : ℝ) := Nat.cast_pos.mpr hM
  have hsm : ∀ m : Fin M, ∑ i, per_probs logits m b i = 1 := by
    intro m
    show ∑ i, Real.exp (logits m b i) / (∑ j, Real.exp (logits m b j)) = 1
    rw [← Finset.sum_div, div_self (sum_exp_pos ⟨0, hC⟩ (logits m b)).ne']
  show ∑ i, (∑ m, per_probs logits m b i) / (M : ℝ) = 1
  rw [← Finset.sum_div, Finset.sum_comm]
  have hrw : ∑ m : Fin M, ∑ i, per_probs logits m b i =
      ∑ _m : Fin M, (1 : ℝ) := Finset.sum_congr rfl (fun m _ => hsm m)
  rw [hrw, Finset.sum_const, Finset.card_univ, Fintype.card_fin, nsmul_eq_mul,
    mul_one, div_self hMR.ne']

/-- Witness for C5 at the concrete input `M = 2`, `B = 1`, `C = 3`, all
logits zero. -/
theorem ensemble_probs_sum_one_witness :
    (0 : ℕ) < 2 ∧ (0 : ℕ) < 3 ∧
      ∑ i, ensemble_probs
          (fun _ : Fin 2 => fun _ : Fin 1 => fun _ : Fin 3 => (0 : ℝ)) 0 i = 1 :=
  ⟨Nat.zero_lt_two, Nat.zero_lt_succ 2,
    ensemble_probs_sum_one Nat.zero_lt_two (Nat.zero_lt_succ 2)
      (fun _ : Fin 2 => fun _ : Fin 1 => fun _ : Fin 3 => (0 : ℝ)) 0⟩

/-- The cache file name `'{dataset}_{member}.npy'.format(...)` built in the
inference loop of `main`. -/
def cache_filename (dataset : String) (member : Nat) : String :=
  dataset ++ "_" ++ toString member ++ ".npy"

/-- One iteration of the inner inference loop of `main` for a
(dataset, member) pair: if the cache file exists the pair is skipped
entirely; otherwise `steps_per_eval` forward passes are run and the file is
written. Returns the new cache contents and the number of forward passes
performed. The cache is an association list from file name to stored
logits (of abstract content type `α`); `run_model` stands in for the
concatenated forward passes producing the file contents. -/
def process_pair (α : Type) (steps : String → Nat) (run_model : String → Nat → α)
    (cache : List (String × α)) (name : String) (m : Nat) :
    List (String × α) × Nat :=
  match cache.lookup (cache_filename name m) with
  | some _ => (cache, 0)
  | none => (cache ++ [(cache_filename name m, run_model name m)], steps name)

/-- The full inference phase of `main`: the nested loop over ensemble
members (outer) and datasets (inner), threading the cache and accumulating
the total number of forward passes. -/
def inference_phase (α : Type) (steps : String → Nat)
    (run_model : String → Nat → α) (members : List Nat)
    (datasets : List String) (cache : List (String × α)) :
    List (String × α) × Nat :=
  members.foldl
    (fun acc m =>
      datasets.foldl
        (fun acc2 name =>
          let r := process_pair α steps run_model acc2.1 name m
          (r.1, acc2.2 + r.2))
        acc)
    (cache, 0)

/-- The inner dataset loop leaves a fully-hit cache and the running forward
pass count unchanged. -/
lemma datasets_foldl_hit (α : Type) (steps : String → Nat)
    (run_model : String → Nat → α) (m : Nat) :
    ∀ (datasets : List String) (cache : List (String × α)) (passes : Nat),
      (∀ name ∈ datasets, (cache.lookup (cache_filename name m)).isSome) →
      datasets.foldl
        (fun acc2 name =>
          let r := process_pair α steps run_model acc2.1 name m
          (r.1, acc2.2 + r.2))
        (cache, passes) = (cache, passes) := by
  intro datasets
  induction datasets with
  | nil => intro cache passes _; rfl
  | cons name rest ih =>
    intro cache passes hall
    have hhit := hall name (List.mem_cons_self name rest)
    obtain ⟨v, hv⟩ := Option.isSome_iff_exists.mp hhit
    have hstep : process_pair α steps run_model cache name m = (cache, 0) := by
      unfold process_pair
      rw [hv]
    simp only [List.foldl_cons, hstep, Nat.add_zero]
    exact ih cache passes (fun d hd => hall d (List.mem_cons_of_mem name hd))

/-- C6: a (dataset, member) pair whose cache file already exists triggers
zero forward passes and leaves the cache untouched; consequently, running
the whole inference phase over a fully populated cache performs zero
forward passes and leaves every cache file unchanged. -/
theorem cache_skip_if_exists (α : Type) (steps : String → Nat)
    (run_model : String → Nat → α) (cache : List (String × α))
    (members : List Nat) (datasets : List String) :
    (∀ name m, (cache.lookup (cache_filename name m)).isSome →
      process_pair α steps run_model cache name m = (cache, 0)) ∧
    ((∀ m ∈ members, ∀ name ∈ datasets,
        (cache.lookup (cache_filename name m)).isSome) →
      inference_phase α steps run_model members datasets cache = (cache, 0)) := by
  constructor
  · intro name m hhit
    obtain ⟨v, hv⟩ := Option.isSome_iff_exists.mp hhit
    unfold process_pair
    rw [hv]
  · intro hall
    unfold inference_phase
    induction members with
    | nil => rfl
    | cons m rest ih =>
      simp only [List.foldl_cons]
      rw [datasets_foldl_hit α steps run_model m datasets cache 0
        (hall m (List.mem_cons_self m rest))]
      exact ih (fun m' hm' => hall m' (List.mem_cons_of_mem m hm'))

/-- Witness for C6: one member, two datasets, both cache files present. -/
theorem cache_skip_if_exists_witness :
    process_pair Nat (fun _ => 3) (fun _ _ => 7)
        [("clean_0.npy", 5), ("ood_0.npy", 6)] "clean" 0 =
      ([("clean_0.npy", 5), ("ood_0.npy", 6)], 0) ∧
    inference_phase Nat (fun _ => 3) (fun _ _ => 7) [0] ["clean", "ood"]
        [("clean_0.npy", 5), ("ood_0.npy", 6)] =
      ([("clean_0.npy", 5), ("ood_0.npy", 6)], 0) :=
  ⟨(cache_skip_if_exists Nat (fun _ => 3) (fun _ _ => 7)
      [("clean_0.npy", 5), ("ood_0.npy", 6)] [0] ["clean", "ood"]).1
      "clean" 0 (by decide),
    (cache_skip_if_exists Nat (fun _ => 3) (fun _ _ => 7)
      [("clean_0.npy", 5), ("ood_0.npy", 6)] [0] ["clean", "ood"]).2
      (by decide)⟩

/-- The completion percentage logged after processing ensemble member `m`
(0-based) and dataset `n` (0-based) in the inference loop of `main`:
`percent = (m * num_datasets + (n + 1)) / (ensemble_size * num_datasets)`,
embedded over `ℚ`. -/
def completion_percent (ensemble_size num_datasets m n : Nat) : ℚ :=
  ((m * num_datasets + (n + 1) : ℕ) : ℚ) /
    ((ensemble_size * num_datasets : ℕ) : ℚ)

/-- C7 counterexample: with one member and one dataset, after the first
(member 0, dataset 0) iteration the code logs `1/1 = 1`, not
`(0 * 1 + 0) / (1 * 1) = 0` as the claim states. -/
theorem completion_percent_counterexample :
    completion_percent 1 1 0 0 ≠
      ((0 * 1 + 0 : ℕ) : ℚ) / ((1 * 1 : ℕ) : ℚ) := by
  norm_num [completion_percent]

/-- C7 amended: the logged completion percentage equals
`(m * num_datasets + (n + 1)) / (ensemble_size * num_datasets)` — the
dataset index is counted 1-based (`n + 1`), not 0-based. -/
theorem completion_percent_formula (ensemble_size num_datasets m n : Nat) :
    completion_percent ensemble_size num_datasets m n =
      ((m * num_datasets + (n + 1) : ℕ) : ℚ) /
        ((ensemble_size * num_datasets : ℕ) : ℚ) := rfl

/-- The phases of work performed by `main` after the configuration checks,
in program order. -/
inductive Event where
  | dataset_construction
  | inference
  | caching
  | metric_accumulation
  deriving DecidableEq

/-- The configuration flags consulted by the checks in `main`. -/
structure Flags where
  use_gpu : Bool
  num_cores : Nat
  model_family : String

/-- Python's `str.lower()` as used by `FLAGS.model_family.lower()`
(ASCII model-family names): lower-case every character. -/
def lower_string (s : String) : String :=
  ⟨s.data.map Char.toLower⟩

/-- The control-flow skeleton of `main`: the accelerator checks run first
and raise before anything else; the dataset builders are then constructed
and the test datasets built; only after that is the model family examined,
raising on anything other than TextCNN or BERT (case-insensitively).
Returns the list of work phases performed before returning or raising,
together with the raised error message if any. -/
def main_run (f : Flags) : List Event × Option String :=
  if f.use_gpu = false then
    ([], some "Only GPU is currently supported.")
  else if 1 < f.num_cores then
    ([], some "Only a single accelerator is currently supported.")
  else if lower_string f.model_family = "textcnn" ∨ lower_string f.model_family = "bert" then
    ([Event.dataset_construction, Event.inference, Event.caching,
      Event.metric_accumulation], none)
  else
    ([Event.dataset_construction],
      some ("model_family (" ++ f.model_family ++
        ") can only be TextCNN or BERT."))

/-- C8 counterexample: with a supported accelerator configuration and the
unknown model family `"mlp"`, `main` raises the model-family error only
after dataset construction has already happened, so not every configuration
error precedes all work. -/
theorem config_error_counterexample :
    (main_run ⟨true, 1, "mlp"⟩).2.isSome = true ∧
      (main_run ⟨true, 1, "mlp"⟩).1 ≠ ([] : List Event) := by
  decide

/-- C8 amended: the accelerator configuration errors are raised before any
work begins, while the unknown-model-family error is raised after dataset
construction but before inference, caching and metric accumulation. -/
theorem config_error_order (f : Flags) :
    ((f.use_gpu = false ∨ 1 < f.num_cores) →
      (main_run f).1 = [] ∧ (main_run f).2.isSome = true) ∧
    (f.use_gpu = true → f.num_cores ≤ 1 →
      lower_string f.model_family ≠ "textcnn" → lower_string f.model_family ≠ "bert" →
      (main_run f).1 = [Event.dataset_construction] ∧
        (main_run f).2.isSome = true ∧
        Event.inference ∉ (main_run f).1 ∧
        Event.caching ∉ (main_run f).1 ∧
        Event.metric_accumulation ∉ (main_run f).1) := by
  constructor
  · intro h
    by_cases hgpu : f.use_gpu = false
    · simp [main_run, hgpu]
    · have hcores : 1 < f.num_cores := h.resolve_left hgpu
      simp [main_run, hgpu, hcores]
  · intro hgpu hcores h1 h2
    have hc : ¬ 1 < f.num_cores := by omega
    simp [main_run, hgpu, hc, h1, h2]

/-- Witness for C8 amended: a rejected accelerator configuration performs
no work, and an unknown model family on a valid accelerator performs only
dataset construction. -/
theorem config_error_order_witness :
    ((main_run ⟨false, 1, "bert"⟩).1 = [] ∧
      (main_run ⟨false, 1, "bert"⟩).2.isSome = true) ∧
    ((main_run ⟨true, 1, "mlp"⟩).1 = [Event.dataset_construction] ∧
      (main_run ⟨true, 1, "mlp"⟩).2.isSome = true ∧
      Event.inference ∉ (main_run ⟨true, 1, "mlp"⟩).1 ∧
      Event.caching ∉ (main_run ⟨true, 1, "mlp"⟩).1 ∧
      Event.metric_accumulation ∉ (main_run ⟨true, 1, "mlp"⟩).1) :=
  ⟨(config_error_order ⟨false, 1, "bert"⟩).1 (Or.inl rfl),
    (config_error_order ⟨true, 1, "mlp"⟩).2 rfl (by decide) (by decide)
      (by decide)⟩

/-- `steps_per_eval[dataset_name] = num_test_examples // batch_size` from
`main`. -/
def steps_per_eval (num_test_examples batch_size : Nat) : Nat :=
  num_test_examples / batch_size

/-- Example index `k` of a dataset split is inferred, cached and scored
exactly when it falls inside one of the evaluation batches: the inference
loop runs `steps_per_eval` batches of `batch_size` examples, and the
evaluation loop slices `logits_dataset[:, step*batch_size:(step+1)*batch_size]`
for the same steps. -/
def example_evaluated (num_test_examples batch_size k : Nat) : Prop :=
  ∃ step < steps_per_eval num_test_examples batch_size,
    ∃ i < batch_size, k = step * batch_size + i

/-- C9: the evaluation step count is `num_test_examples / batch_size`, so
exactly `steps_per_eval * batch_size` examples are processed — namely the
indices below that bound — the processed prefix never exceeds the split
size, and the silently excluded tail is shorter than one batch. -/
theorem eval_truncation (N B : Nat) (hB : 0 < B) :
    steps_per_eval N B = N / B ∧
    (∀ k, example_evaluated N B k ↔ k < steps_per_eval N B * B) ∧
    steps_per_eval N B * B ≤ N ∧
    N - steps_per_eval N B * B < B := by
  refine ⟨rfl, ?_, Nat.div_mul_le_self N B, ?_⟩
  · intro k
    constructor
    · rintro ⟨s, hs, i, hi, rfl⟩
      calc s * B + i < s * B + B := Nat.add_lt_add_left hi _
        _ = (s + 1) * B := by ring
        _ ≤ steps_per_eval N B * B := Nat.mul_le_mul_right B hs
    · intro hk
      exact ⟨k / B, (Nat.div_lt_iff_lt_mul hB).mpr hk, k % B,
        Nat.mod_lt k hB, (Nat.div_add_mod' k B).symm⟩
  · have h2 : N % B < B := Nat.mod_lt N hB
    have h3 : N / B * B + N % B = N := Nat.div_add_mod' N B
    have hle : N / B * B ≤ N := Nat.div_mul_le_self N B
    show N - N / B * B < B
    rw [Nat.sub_lt_iff_lt_add hle]
    calc N = N / B * B + N % B := h3.symm
      _ < N / B * B + B := Nat.add_lt_add_left h2 _

/-- Witness for C9 at `num_test_examples = 5`, `batch_size = 2`: two full
batches are evaluated and one trailing example is dropped. -/
theorem eval_truncation_witness :
    (0 : ℕ) < 2 ∧
      (steps_per_eval 5 2 = 5 / 2 ∧
        (∀ k, example_evaluated 5 2 k ↔ k < steps_per_eval 5 2 * 2) ∧
        steps_per_eval 5 2 * 2 ≤ 5 ∧
        5 - steps_per_eval 5 2 * 2 < 2) :=
  ⟨Nat.zero_lt_two, eval_truncation 5 2 Nat.zero_lt_two⟩

end ClincEnsemble
